import Mathlib

/-!
Verification of the boids flocking simulation kernels (src/kernel.cu).

The CUDA kernels are shallowly embedded.  Float values are modelled by exact
rationals (every IEEE float is a rational number); the exact-real result of the
final speed clamp, which divides by a square root, lives in `Vec3R`, a vector
of real numbers.  Distance tests `glm::length(a - b) < d` are modelled by the
equivalent comparison of squared norms, valid because both sides are
nonnegative for the positive rule distances; the bridge to the literal
square-root formulation is proved in `normSq_lt_iff_length_lt`.

Device buffers (`dev_pos`, `dev_vel1`, ...) are int-indexed C arrays and are
modelled as total functions from ℤ.  A CUDA launch over `N` threads is the
fold of the per-thread body over thread ids `0..N-1`; thread ids are
nonnegative, and in the kernels below distinct threads write distinct slots
and never read a slot another thread writes, so the sequential fold agrees
with the concurrent execution.
-/

namespace BoidsModel

/-! ### Configuration constants, kernel.cu lines 45-56 -/

def rule1Distance : ℚ := 5

def rule2Distance : ℚ := 3

def rule3Distance : ℚ := 5

def rule1Scale : ℚ := 1 / 100

def rule2Scale : ℚ := 1 / 10

def rule3Scale : ℚ := 1 / 10

def maxSpeed : ℚ := 1

def scene_scale : ℚ := 100

/-! ### glm::vec3 over exact rationals, and its exact-real counterpart -/

structure Vec3 where
  x : ℚ
  y : ℚ
  z : ℚ
deriving DecidableEq

def Vec3.add (a b : Vec3) : Vec3 := ⟨a.x + b.x, a.y + b.y, a.z + b.z⟩

def Vec3.sub (a b : Vec3) : Vec3 := ⟨a.x - b.x, a.y - b.y, a.z - b.z⟩

def Vec3.scale (k : ℚ) (a : Vec3) : Vec3 := ⟨k * a.x, k * a.y, k * a.z⟩

def Vec3.zero : Vec3 := ⟨0, 0, 0⟩

/-- Squared euclidean norm; `glm::length v` is `Real.sqrt v.normSq`. -/
def Vec3.normSq (a : Vec3) : ℚ := a.x ^ 2 + a.y ^ 2 + a.z ^ 2

structure Vec3R where
  x : ℝ
  y : ℝ
  z : ℝ

def Vec3.toR (a : Vec3) : Vec3R := ⟨(a.x : ℝ), (a.y : ℝ), (a.z : ℝ)⟩

noncomputable def Vec3R.scale (k : ℝ) (a : Vec3R) : Vec3R := ⟨k * a.x, k * a.y, k * a.z⟩

def Vec3R.normSq (a : Vec3R) : ℝ := a.x ^ 2 + a.y ^ 2 + a.z ^ 2

/-- `glm::length` of an exact-real vector. -/
noncomputable def Vec3R.length (a : Vec3R) : ℝ := Real.sqrt a.normSq

theorem Vec3R.normSq_nonneg (a : Vec3R) : 0 ≤ a.normSq := by
  have hx := sq_nonneg a.x
  have hy := sq_nonneg a.y
  have hz := sq_nonneg a.z
  unfold Vec3R.normSq
  linarith

theorem Vec3.normSq_nonnegQ (a : Vec3) : 0 ≤ a.normSq := by
  unfold Vec3.normSq
  positivity

theorem Vec3.normSq_toR (a : Vec3) : a.toR.normSq = (a.normSq : ℝ) := by
  simp [Vec3.toR, Vec3R.normSq, Vec3.normSq]

/-- The squared-norm comparison used throughout the model coincides with the
literal `glm::length (a - b) < d` comparison of kernel.cu, for a nonnegative
distance `d`. -/
theorem normSq_lt_iff_length_lt (a b : Vec3) (d : ℚ) (hd : 0 ≤ d) :
    (a.sub b).normSq < d ^ 2 ↔ Vec3R.length (a.sub b).toR < (d : ℝ) := by
  rcases lt_or_eq_of_le hd with hd' | hd'
  · rw [Vec3R.length, Real.sqrt_lt' (by exact_mod_cast hd'), Vec3.normSq_toR]
    constructor
    · intro h
      exact_mod_cast h
    · intro h
      exact_mod_cast h
  · subst hd'
    have h1 : ¬(a.sub b).normSq < 0 ^ 2 := by
      have := Vec3.normSq_nonnegQ (a.sub b)
      nlinarith
    have h2 : ¬Vec3R.length (a.sub b).toR < ((0 : ℚ) : ℝ) := by
      push_cast
      exact not_lt.mpr (Real.sqrt_nonneg _)
    exact iff_of_false h1 h2

/-! ### The three flocking rules, kernel.cu lines 251-304 -/

/-- `kernUpdateVelocityRule1`, kernel.cu lines 251-269.  Note that when
`count == 0` the source still executes `rule1 = (rule1 - pos[iSelf]) * rule1Scale`
with `rule1 = (0,0,0)`, so the result is `-pos[iSelf] * rule1Scale`. -/
def kernUpdateVelocityRule1 (N iSelf : ℤ) (pos : ℤ → Vec3) : Vec3 :=
  let acc :=
    (List.range N.toNat).foldl
      (fun (acc : Vec3 × ℕ) (i : ℕ) =>
        if (i : ℤ) = iSelf then acc
        else if ((pos iSelf).sub (pos (i : ℤ))).normSq < rule1Distance ^ 2 then
          (acc.1.add (pos (i : ℤ)), acc.2 + 1)
        else acc)
      (Vec3.zero, 0)
  let rule1 := if acc.2 ≠ 0 then Vec3.scale (1 / (acc.2 : ℚ)) acc.1 else acc.1
  Vec3.scale rule1Scale (rule1.sub (pos iSelf))

/-- `kernUpdateVelocityRule2`, kernel.cu lines 271-286. -/
def kernUpdateVelocityRule2 (N iSelf : ℤ) (pos : ℤ → Vec3) : Vec3 :=
  let rule2 :=
    (List.range N.toNat).foldl
      (fun (acc : Vec3) (i : ℕ) =>
        if (i : ℤ) = iSelf then acc
        else if ((pos iSelf).sub (pos (i : ℤ))).normSq < rule2Distance ^ 2 then
          acc.sub ((pos (i : ℤ)).sub (pos iSelf))
        else acc)
      Vec3.zero
  Vec3.scale rule2Scale rule2

/-- `kernUpdateVelocityRule3`, kernel.cu lines 288-304.  The count is
accumulated but the averaging line is commented out in the source, so the sum
is only scaled. -/
def kernUpdateVelocityRule3 (N iSelf : ℤ) (pos vel : ℤ → Vec3) : Vec3 :=
  let acc :=
    (List.range N.toNat).foldl
      (fun (acc : Vec3 × ℕ) (i : ℕ) =>
        if (i : ℤ) = iSelf then acc
        else if ((pos iSelf).sub (pos (i : ℤ))).normSq < rule3Distance ^ 2 then
          (acc.1.add (vel (i : ℤ)), acc.2 + 1)
        else acc)
      (Vec3.zero, 0)
  Vec3.scale rule3Scale acc.1

/-- `computeVelocityChange` before the speed clamp, kernel.cu lines 312-322:
`vel_change = 0 + rule1 + rule2 + rule3 + vel[iSelf]`. -/
def computeVelocityChangePre (N iSelf : ℤ) (pos vel : ℤ → Vec3) : Vec3 :=
  (((Vec3.zero.add (kernUpdateVelocityRule1 N iSelf pos)).add
      (kernUpdateVelocityRule2 N iSelf pos)).add
      (kernUpdateVelocityRule3 N iSelf pos vel)).add (vel iSelf)

/-- The speed clamp, kernel.cu lines 323-328 (also lines 646-650 and 813-818):
`if (glm::length(v) > maxSpeed) v = v * (maxSpeed / glm::length(v))`. -/
noncomputable def clampSpeed (v : Vec3) : Vec3R :=
  if Vec3R.length v.toR > ((maxSpeed : ℚ) : ℝ) then
    Vec3R.scale (((maxSpeed : ℚ) : ℝ) / Vec3R.length v.toR) v.toR
  else v.toR

/-- `computeVelocityChange`, kernel.cu lines 312-329. -/
noncomputable def computeVelocityChange (N iSelf : ℤ) (pos vel : ℤ → Vec3) : Vec3R :=
  clampSpeed (computeVelocityChangePre N iSelf pos vel)

/-- `kernUpdateVelocityBruteForce`, kernel.cu lines 335-348: thread `index`
(for `index < N`) stores `computeVelocityChange(N, index, pos, vel1)` into
`vel2[index]`. -/
noncomputable def kernUpdateVelocityBruteForce (N : ℤ) (pos vel1 : ℤ → Vec3)
    (vel2 : ℤ → Vec3R) : ℤ → Vec3R :=
  (List.range N.toNat).foldl
    (fun v2 (idx : ℕ) =>
      Function.update v2 ((idx : ℕ) : ℤ) (computeVelocityChange N ((idx : ℕ) : ℤ) pos vel1))
    vel2

/-! ### Position integrator, kernel.cu lines 354-373 -/

/-- The per-axis boundary wrap of `kernUpdatePos`: first the `< -scene_scale`
test, then the `> scene_scale` test on its result (lines 364-370). -/
def wrapCoord (c : ℚ) : ℚ :=
  let c1 := if c < -scene_scale then scene_scale else c
  if c1 > scene_scale then -scene_scale else c1

/-- `kernUpdatePos`, kernel.cu lines 354-373: `thisPos += vel[index] * dt`,
then wrap each axis.  Thread ids are nonnegative, so only slots
`0 ≤ index < N` are written. -/
def kernUpdatePos (N : ℤ) (dt : ℚ) (pos vel : ℤ → Vec3) : ℤ → Vec3 :=
  fun index =>
    if 0 ≤ index ∧ index < N then
      let thisPos := (pos index).add (Vec3.scale dt (vel index))
      ⟨wrapCoord thisPos.x, wrapCoord thisPos.y, wrapCoord thisPos.z⟩
    else pos index

/-! ### Uniform grid, kernel.cu lines 375-456 and grid geometry from initSimulation -/

/-- A C cast from a float to `int` truncates toward zero. -/
def truncI (q : ℚ) : ℤ := if 0 ≤ q then ⌊q⌋ else -⌊-q⌋

/-- `std::fmod a w = a - w * trunc (a / w)`. -/
def fmodQ (a w : ℚ) : ℚ := a - w * (truncI (a / w) : ℚ)

/-- `gridIndex3Dto1D`, kernel.cu lines 381-383. -/
def gridIndex3Dto1D (x y z gridResolution : ℤ) : ℤ :=
  x + y * gridResolution + z * gridResolution * gridResolution

/-- Grid geometry computed in `Boids::initSimulation`, kernel.cu lines 167-177. -/
def gridCellWidth : ℚ := 2 * max (max rule1Distance rule2Distance) rule3Distance

def halfSideCount : ℤ := truncI (scene_scale / gridCellWidth) + 1

def gridSideCount : ℤ := 2 * halfSideCount

def gridCellCount : ℤ := gridSideCount * gridSideCount * gridSideCount

def gridInverseCellWidth : ℚ := 1 / gridCellWidth

def halfGridWidth : ℚ := gridCellWidth * (halfSideCount : ℚ)

/-- `gridMinimum` starts as the default-initialised `(0,0,0)` and each
component has `halfGridWidth` subtracted (kernel.cu lines 100, 175-177). -/
def gridMinimum : Vec3 := ⟨0 - halfGridWidth, 0 - halfGridWidth, 0 - halfGridWidth⟩

/-- `kernComputeIndices`, kernel.cu lines 385-416, as compiled with
`COHERENT_GRID = 1` (line 19): `indices[index] = index` and the boid's own
slot is used directly.  Returns the updated `(indices, gridIndices)` pair. -/
def kernComputeIndices (N gridResolution : ℤ) (gridMin : Vec3) (inverseCellWidth : ℚ)
    (pos : ℤ → Vec3) (indices gridIndices : ℤ → ℤ) : (ℤ → ℤ) × (ℤ → ℤ) :=
  (fun index => if 0 ≤ index ∧ index < N then index else indices index,
   fun index =>
     if 0 ≤ index ∧ index < N then
       gridIndex3Dto1D
         (truncI (((pos index).x - gridMin.x) * inverseCellWidth))
         (truncI (((pos index).y - gridMin.y) * inverseCellWidth))
         (truncI (((pos index).z - gridMin.z) * inverseCellWidth))
         gridResolution
     else gridIndices index)

/-- `kernResetIntBuffer`, kernel.cu lines 420-425. -/
def kernResetIntBuffer (N : ℤ) (value : ℤ) (intBuffer : ℤ → ℤ) : ℤ → ℤ :=
  fun index => if 0 ≤ index ∧ index < N then value else intBuffer index

/-- The condition of the first write of `kernIdentifyCellStartEnd`
(kernel.cu line 445): `index == 0 || key[index] != key[index - 1]`. -/
def isRunStart (key : ℤ → ℤ) (i : ℤ) : Prop := i = 0 ∨ key i ≠ key (i - 1)

/-- The condition of the second write of `kernIdentifyCellStartEnd`
(kernel.cu line 450): `index == N - 1 || key[index] != key[index + 1]`. -/
def isRunEnd (N : ℤ) (key : ℤ → ℤ) (i : ℤ) : Prop := i = N - 1 ∨ key i ≠ key (i + 1)

instance (key : ℤ → ℤ) (i : ℤ) : Decidable (isRunStart key i) := by
  unfold isRunStart
  infer_instance

instance (N : ℤ) (key : ℤ → ℤ) (i : ℤ) : Decidable (isRunEnd N key i) := by
  unfold isRunEnd
  infer_instance

/-- The body of `kernIdentifyCellStartEnd` for thread `idx`
(kernel.cu lines 442-455): write `gridCellStartIndices[key[index]] = index`
when `index` begins a run of equal keys, and
`gridCellEndIndices[key[index]] = index + 1` when it ends one. -/
def identifyBody (N : ℤ) (particleGridIndices : ℤ → ℤ) (se : (ℤ → ℤ) × (ℤ → ℤ))
    (idx : ℕ) : (ℤ → ℤ) × (ℤ → ℤ) :=
  let index : ℤ := (idx : ℤ)
  let se1 :=
    if isRunStart particleGridIndices index then
      (Function.update se.1 (particleGridIndices index) index, se.2)
    else se
  if isRunEnd N particleGridIndices index then
    (se1.1, Function.update se1.2 (particleGridIndices index) (index + 1))
  else se1

/-- `kernIdentifyCellStartEnd`, kernel.cu lines 436-456.  The parallel launch
is modelled as a fold over thread ids; on the sorted key sequences this kernel
is launched on, distinct threads write distinct cells, so the fold order is
irrelevant. -/
def kernIdentifyCellStartEnd (N : ℤ) (particleGridIndices : ℤ → ℤ)
    (gridCellStartIndices gridCellEndIndices : ℤ → ℤ) : (ℤ → ℤ) × (ℤ → ℤ) :=
  (List.range N.toNat).foldl (identifyBody N particleGridIndices)
    (gridCellStartIndices, gridCellEndIndices)

/-! ### Grid-based neighbor search, kernel.cu lines 458-655 and 657-822 -/

/-- The candidate-cell collection loop shared by the scattered and coherent
kernels (kernel.cu lines 520-542 and 692-715): the 2x2x2 block of cells with
lower corner `(base_x, base_y, base_z)`, skipping out-of-bounds coordinates,
gathered with `z` as the outermost loop and `x` innermost. -/
def neighborCellVec (base_x base_y base_z gridResolution : ℤ) : List ℤ :=
  (List.range 2).foldl
    (fun acc (i : ℕ) =>
      (List.range 2).foldl
        (fun acc2 (j : ℕ) =>
          (List.range 2).foldl
            (fun acc3 (k : ℕ) =>
              let neighbor_z := base_z + (i : ℤ)
              let neighbor_y := base_y + (j : ℤ)
              let neighbor_x := base_x + (k : ℤ)
              if neighbor_x < 0 ∨ gridResolution ≤ neighbor_x ∨
                  neighbor_y < 0 ∨ gridResolution ≤ neighbor_y ∨
                  neighbor_z < 0 ∨ gridResolution ≤ neighbor_z then acc3
              else acc3 ++ [gridIndex3Dto1D neighbor_x neighbor_y neighbor_z gridResolution])
            acc2)
        acc)
    []

/-- The list of sort positions `start, start+1, ..., end-1` of a cell range,
i.e. the inner `for (int j = start; j < end; ++j)` loop. -/
def intList (s e : ℤ) : List ℤ := (List.range (e - s).toNat).map fun t => s + (t : ℤ)

/-- Accumulator for the three rules inside the grid kernels
(kernel.cu lines 552-557 and 718-723). -/
structure RuleAcc where
  rule1 : Vec3
  rule2 : Vec3
  rule3 : Vec3
  rule1_count : ℕ
  rule3_count : ℕ
deriving DecidableEq

def RuleAcc.init : RuleAcc := ⟨Vec3.zero, Vec3.zero, Vec3.zero, 0, 0⟩

/-- One neighbor's contribution to the rule accumulators (kernel.cu lines
579-603 and 745-770), given the self particle's position. -/
def accumNeighbor (selfPos nPos nVel : Vec3) (st : RuleAcc) : RuleAcc :=
  let st1 :=
    if (selfPos.sub nPos).normSq < rule1Distance ^ 2 then
      { st with rule1 := st.rule1.add nPos, rule1_count := st.rule1_count + 1 }
    else st
  let st2 :=
    if (selfPos.sub nPos).normSq < rule2Distance ^ 2 then
      { st1 with rule2 := st1.rule2.sub (nPos.sub selfPos) }
    else st1
  if (selfPos.sub nPos).normSq < rule3Distance ^ 2 then
    { st2 with rule3 := st2.rule3.add nVel, rule3_count := st2.rule3_count + 1 }
  else st2

/-- Combining the accumulated rules with the current velocity
(kernel.cu lines 635-645 and 803-813), before the speed clamp. -/
def combineRules (st : RuleAcc) (selfPos selfVel : Vec3) : Vec3 :=
  let rule1 :=
    if st.rule1_count ≠ 0 then Vec3.scale (1 / (st.rule1_count : ℚ)) st.rule1 else st.rule1
  let rule1 := Vec3.scale rule1Scale (rule1.sub selfPos)
  let rule2 := Vec3.scale rule2Scale st.rule2
  let rule3 := Vec3.scale rule3Scale st.rule3
  (((Vec3.zero.add rule1).add rule2).add rule3).add selfVel

/-- The body of `kernUpdateVelNeighborSearchScattered` for one thread, up to
(but not including) the speed clamp: kernel.cu lines 477-645.  `index` is the
thread id (a sort position); the evaluated particle is
`boid_index = particleArrayIndices[index]`.  A candidate cell contributes only
when `end > start && start > 0` (line 570); its particles are reached through
the `particleArrayIndices` indirection (line 576). -/
def scatteredPre (N gridResolution : ℤ) (gridMin : Vec3) (inverseCellWidth cellWidth : ℚ)
    (gridCellStartIndices gridCellEndIndices particleArrayIndices : ℤ → ℤ)
    (pos vel1 : ℤ → Vec3) (index : ℤ) : Vec3 :=
  let boid_index := particleArrayIndices index
  let x := truncI (((pos boid_index).x - gridMin.x) * inverseCellWidth)
  let y := truncI (((pos boid_index).y - gridMin.y) * inverseCellWidth)
  let z := truncI (((pos boid_index).z - gridMin.z) * inverseCellWidth)
  let cell_x : Bool := decide (fmodQ ((pos boid_index).x - gridMin.x) cellWidth > cellWidth / 2)
  let cell_y : Bool := decide (fmodQ ((pos boid_index).y - gridMin.y) cellWidth > cellWidth / 2)
  let cell_z : Bool := decide (fmodQ ((pos boid_index).z - gridMin.z) cellWidth > cellWidth / 2)
  let base_x := if cell_x then x else x - 1
  let base_y := if cell_y then y else y - 1
  let base_z := if cell_z then z else z - 1
  let st :=
    (neighborCellVec base_x base_y base_z gridResolution).foldl
      (fun st c =>
        if gridCellEndIndices c > gridCellStartIndices c ∧ gridCellStartIndices c > 0 then
          (intList (gridCellStartIndices c) (gridCellEndIndices c)).foldl
            (fun st2 j =>
              let neighbor_index := particleArrayIndices j
              if neighbor_index = boid_index then st2
              else accumNeighbor (pos boid_index) (pos neighbor_index) (vel1 neighbor_index) st2)
            st
        else st)
      RuleAcc.init
  combineRules st (pos boid_index) (vel1 boid_index)

/-- `kernUpdateVelNeighborSearchScattered`, kernel.cu lines 458-655: each
thread `index < N` clamps its combined rule output and stores it into
`vel2[particleArrayIndices[index]]` (line 651). -/
noncomputable def kernUpdateVelNeighborSearchScattered (N gridResolution : ℤ) (gridMin : Vec3)
    (inverseCellWidth cellWidth : ℚ)
    (gridCellStartIndices gridCellEndIndices particleArrayIndices : ℤ → ℤ)
    (pos vel1 : ℤ → Vec3) (vel2 : ℤ → Vec3R) : ℤ → Vec3R :=
  (List.range N.toNat).foldl
    (fun v2 (idx : ℕ) =>
      Function.update v2 (particleArrayIndices ((idx : ℕ) : ℤ))
        (clampSpeed (scatteredPre N gridResolution gridMin inverseCellWidth cellWidth
          gridCellStartIndices gridCellEndIndices particleArrayIndices pos vel1 ((idx : ℕ) : ℤ))))
    vel2

/-- The body of `kernUpdateVelNeighborSearchCoherent` for one thread, up to
the speed clamp: kernel.cu lines 678-813.  Identical to the scattered body
except that the evaluated particle is the thread id itself and a cell's
particles are read directly at their sort positions (line 742). -/
def coherentPre (N gridResolution : ℤ) (gridMin : Vec3) (inverseCellWidth cellWidth : ℚ)
    (gridCellStartIndices gridCellEndIndices : ℤ → ℤ)
    (pos vel1 : ℤ → Vec3) (boid_index : ℤ) : Vec3 :=
  let x := truncI (((pos boid_index).x - gridMin.x) * inverseCellWidth)
  let y := truncI (((pos boid_index).y - gridMin.y) * inverseCellWidth)
  let z := truncI (((pos boid_index).z - gridMin.z) * inverseCellWidth)
  let cell_x : Bool := decide (fmodQ ((pos boid_index).x - gridMin.x) cellWidth > cellWidth / 2)
  let cell_y : Bool := decide (fmodQ ((pos boid_index).y - gridMin.y) cellWidth > cellWidth / 2)
  let cell_z : Bool := decide (fmodQ ((pos boid_index).z - gridMin.z) cellWidth > cellWidth / 2)
  let base_x := if cell_x then x else x - 1
  let base_y := if cell_y then y else y - 1
  let base_z := if cell_z then z else z - 1
  let st :=
    (neighborCellVec base_x base_y base_z gridResolution).foldl
      (fun st c =>
        if gridCellEndIndices c > gridCellStartIndices c ∧ gridCellStartIndices c > 0 then
          (intList (gridCellStartIndices c) (gridCellEndIndices c)).foldl
            (fun st2 j =>
              let neighbor_index := j
              if neighbor_index = boid_index then st2
              else accumNeighbor (pos boid_index) (pos neighbor_index) (vel1 neighbor_index) st2)
            st
        else st)
      RuleAcc.init
  combineRules st (pos boid_index) (vel1 boid_index)

/-- `kernUpdateVelNeighborSearchCoherent`, kernel.cu lines 657-822: thread
`boid_index < N` stores its clamped result into `vel2[boid_index]`. -/
noncomputable def kernUpdateVelNeighborSearchCoherent (N gridResolution : ℤ) (gridMin : Vec3)
    (inverseCellWidth cellWidth : ℚ) (gridCellStartIndices gridCellEndIndices : ℤ → ℤ)
    (pos vel1 : ℤ → Vec3) (vel2 : ℤ → Vec3R) : ℤ → Vec3R :=
  fun boid_index =>
    if 0 ≤ boid_index ∧ boid_index < N then
      clampSpeed (coherentPre N gridResolution gridMin inverseCellWidth cellWidth
        gridCellStartIndices gridCellEndIndices pos vel1 boid_index)
    else vel2 boid_index

/-! ### Cell-range builder: correctness on sorted key sequences -/

/-- The key sequence is sorted ascending on positions `[0, N)`. -/
def SortedKeys (N : ℤ) (key : ℤ → ℤ) : Prop :=
  ∀ i j : ℤ, 0 ≤ i → i ≤ j → j < N → key i ≤ key j

/-- The fold of the first `m` threads of `kernIdentifyCellStartEnd`. -/
def identifyAux (N : ℤ) (key : ℤ → ℤ) (se : (ℤ → ℤ) × (ℤ → ℤ)) (m : ℕ) :
    (ℤ → ℤ) × (ℤ → ℤ) :=
  (List.range m).foldl (identifyBody N key) se

theorem identifyAux_succ (N : ℤ) (key : ℤ → ℤ) (se : (ℤ → ℤ) × (ℤ → ℤ)) (m : ℕ) :
    identifyAux N key se (m + 1) = identifyBody N key (identifyAux N key se m) m := by
  unfold identifyAux
  rw [List.range_succ, List.foldl_append]
  rfl

theorem kernIdentifyCellStartEnd_eq_aux (N : ℤ) (key starts ends : ℤ → ℤ) :
    kernIdentifyCellStartEnd N key starts ends = identifyAux N key (starts, ends) N.toNat :=
  rfl

theorem identifyBody_fst (N : ℤ) (key : ℤ → ℤ) (se : (ℤ → ℤ) × (ℤ → ℤ)) (idx : ℕ) :
    (identifyBody N key se idx).1 =
      if isRunStart key (idx : ℤ) then Function.update se.1 (key (idx : ℤ)) (idx : ℤ)
      else se.1 := by
  unfold identifyBody
  by_cases h1 : isRunStart key (idx : ℤ) <;>
    by_cases h2 : isRunEnd N key (idx : ℤ) <;> simp [h1, h2]

theorem identifyBody_snd (N : ℤ) (key : ℤ → ℤ) (se : (ℤ → ℤ) × (ℤ → ℤ)) (idx : ℕ) :
    (identifyBody N key se idx).2 =
      if isRunEnd N key (idx : ℤ) then
        Function.update se.2 (key (idx : ℤ)) ((idx : ℤ) + 1)
      else se.2 := by
  unfold identifyBody
  by_cases h1 : isRunStart key (idx : ℤ) <;>
    by_cases h2 : isRunEnd N key (idx : ℤ) <;> simp [h1, h2]

theorem sorted_squeeze (N : ℤ) (key : ℤ → ℤ) (hs : SortedKeys N key)
    {i j k : ℤ} (h0 : 0 ≤ i) (hij : i ≤ j) (hjk : j ≤ k) (hk : k < N)
    (hik : key i = key k) : key j = key i := by
  have h1 : key i ≤ key j := hs i j h0 hij (by omega)
  have h2 : key j ≤ key k := hs j k (by omega) hjk hk
  omega

/-- If position `m` starts a run of a sorted key sequence, no earlier position
holds the same key. -/
theorem runStart_no_earlier (N : ℤ) (key : ℤ → ℤ) (hs : SortedKeys N key)
    {i m : ℤ} (h0 : 0 ≤ i) (him : i < m) (hm : m < N) (hkey : key i = key m) :
    ¬isRunStart key m := by
  intro h
  rcases h with h | h
  · omega
  · apply h
    have hsq : key (m - 1) = key i :=
      sorted_squeeze N key hs h0 (by omega) (by omega) (by omega) hkey
    omega

/-- In a sorted key sequence, a position that ends a run admits no later
position with the same key; contrapositively an earlier position of the same
run never satisfies the end-write condition. -/
theorem runEnd_no_earlier (N : ℤ) (key : ℤ → ℤ) (hs : SortedKeys N key)
    {i m : ℤ} (h0 : 0 ≤ i) (him : i < m) (hm : m < N) (hkey : key i = key m) :
    ¬isRunEnd N key i := by
  intro h
  rcases h with h | h
  · omega
  · apply h
    have hsq : key (i + 1) = key i :=
      sorted_squeeze N key hs h0 (by omega) (by omega) hm (by omega)
    omega

theorem identifyAux_start (N : ℤ) (key : ℤ → ℤ) (hs : SortedKeys N key) (m : ℕ)
    (hm : (m : ℤ) ≤ N) :
    (∀ i : ℤ, 0 ≤ i → i < (m : ℤ) → isRunStart key i →
        (identifyAux N key (fun _ => -1, fun _ => -1) m).1 (key i) = i) ∧
      ∀ c : ℤ, (∀ i : ℤ, 0 ≤ i → i < (m : ℤ) → key i = c → ¬isRunStart key i) →
        (identifyAux N key (fun _ => -1, fun _ => -1) m).1 c = -1 := by
  induction m with
  | zero =>
    constructor
    · intro i h0 hi
      omega
    · intro c _
      rfl
  | succ m ih =>
    have hm' : (m : ℤ) ≤ N := by push_cast at hm ⊢; omega
    obtain ⟨ih1, ih2⟩ := ih hm'
    rw [identifyAux_succ, identifyBody_fst]
    by_cases hst : isRunStart key (m : ℤ)
    · rw [if_pos hst]
      constructor
      · intro i h0 hi hsti
        by_cases him : i = (m : ℤ)
        · subst him
          exact Function.update_same _ _ _
        · have hlt : i < (m : ℤ) := by push_cast at hi; omega
          have hne : key (m : ℤ) ≠ key i := by
            intro heq
            exact runStart_no_earlier N key hs h0 hlt (by push_cast at hm; omega)
              heq.symm hst
          rw [Function.update_noteq (by intro h; exact hne h.symm)]
          exact ih1 i h0 hlt hsti
      · intro c hc
        have hne : key (m : ℤ) ≠ c := by
          intro heq
          exact hc (m : ℤ) (by positivity) (by push_cast; omega) heq hst
        rw [Function.update_noteq (by intro h; exact hne h.symm)]
        exact ih2 c fun i h0 hi hk => hc i h0 (by push_cast; omega) hk
    · rw [if_neg hst]
      constructor
      · intro i h0 hi hsti
        have hlt : i < (m : ℤ) := by
          rcases lt_or_eq_of_le (show i ≤ (m : ℤ) by push_cast at hi; omega) with h | h
          · exact h
          · exact absurd (h ▸ hsti) hst
        exact ih1 i h0 hlt hsti
      · intro c hc
        exact ih2 c fun i h0 hi hk => hc i h0 (by push_cast; omega) hk

theorem identifyAux_end (N : ℤ) (key : ℤ → ℤ) (hs : SortedKeys N key) (m : ℕ)
    (hm : (m : ℤ) ≤ N) :
    (∀ i : ℤ, 0 ≤ i → i < (m : ℤ) → isRunEnd N key i →
        (identifyAux N key (fun _ => -1, fun _ => -1) m).2 (key i) = i + 1) ∧
      ∀ c : ℤ, (∀ i : ℤ, 0 ≤ i → i < (m : ℤ) → key i = c → ¬isRunEnd N key i) →
        (identifyAux N key (fun _ => -1, fun _ => -1) m).2 c = -1 := by
  induction m with
  | zero =>
    constructor
    · intro i h0 hi
      omega
    · intro c _
      rfl
  | succ m ih =>
    have hm' : (m : ℤ) ≤ N := by push_cast at hm ⊢; omega
    obtain ⟨ih1, ih2⟩ := ih hm'
    rw [identifyAux_succ, identifyBody_snd]
    by_cases hen : isRunEnd N key (m : ℤ)
    · rw [if_pos hen]
      constructor
      · intro i h0 hi heni
        by_cases him : i = (m : ℤ)
        · subst him
          exact Function.update_same _ _ _
        · have hlt : i < (m : ℤ) := by push_cast at hi; omega
          have hne : key (m : ℤ) ≠ key i := by
            intro heq
            exact runEnd_no_earlier N key hs h0 hlt (by push_cast at hm; omega)
              heq.symm heni
          rw [Function.update_noteq (by intro h; exact hne h.symm)]
          exact ih1 i h0 hlt heni
      · intro c hc
        have hne : key (m : ℤ) ≠ c := by
          intro heq
          exact hc (m : ℤ) (by positivity) (by push_cast; omega) heq hen
        rw [Function.update_noteq (by intro h; exact hne h.symm)]
        exact ih2 c fun i h0 hi hk => hc i h0 (by push_cast; omega) hk
    · rw [if_neg hen]
      constructor
      · intro i h0 hi heni
        have hlt : i < (m : ℤ) := by
          rcases lt_or_eq_of_le (show i ≤ (m : ℤ) by push_cast at hi; omega) with h | h
          · exact h
          · exact absurd (h ▸ heni) hen
        exact ih1 i h0 hlt heni
      · intro c hc
        exact ih2 c fun i h0 hi hk => hc i h0 (by push_cast; omega) hk

/-- Every occupied position of a sorted key sequence belongs to a run whose
first position satisfies the start-write condition. -/
theorem exists_runStart (key : ℤ → ℤ) {i : ℤ} (h0 : 0 ≤ i) :
    ∃ a : ℤ, 0 ≤ a ∧ a ≤ i ∧ key a = key i ∧ isRunStart key a ∧
      ∀ j : ℤ, 0 ≤ j → key j = key i → a ≤ j := by
  have hex : ∃ n : ℕ, key (n : ℤ) = key i := ⟨i.toNat, by rw [Int.toNat_of_nonneg h0]⟩
  set a' := Nat.find hex with ha'
  refine ⟨(a' : ℤ), by positivity, ?_, Nat.find_spec hex, ?_, ?_⟩
  · have := Nat.find_min' hex (show key ((i.toNat : ℕ) : ℤ) = key i by
      rw [Int.toNat_of_nonneg h0])
    omega
  · by_cases ha0 : a' = 0
    · left
      omega
    · right
      intro heq
      have hlt : a' - 1 < a' := by omega
      apply Nat.find_min hex hlt
      have hcast : ((a' - 1 : ℕ) : ℤ) = (a' : ℤ) - 1 := by omega
      rw [hcast, ← heq]
      exact Nat.find_spec hex
  · intro j hj hkj
    have := Nat.find_min' hex (show key ((j.toNat : ℕ) : ℤ) = key i by
      rw [Int.toNat_of_nonneg hj]; exact hkj)
    omega

/-- Every occupied position of a sorted key sequence belongs to a run whose
last position satisfies the end-write condition. -/
theorem exists_runEnd (N : ℤ) (key : ℤ → ℤ) {i : ℤ} (h0 : 0 ≤ i) (hiN : i < N) :
    ∃ b : ℤ, i ≤ b ∧ b < N ∧ key b = key i ∧ isRunEnd N key b ∧
      ∀ j : ℤ, 0 ≤ j → j < N → key j = key i → j ≤ b := by
  have hN1 : 1 ≤ N := by omega
  have hP : key ((i.toNat : ℕ) : ℤ) = key i := by rw [Int.toNat_of_nonneg h0]
  have hle : i.toNat ≤ N.toNat - 1 := by omega
  set b' := Nat.findGreatest (fun n => key (n : ℤ) = key i) (N.toNat - 1) with hb'
  have hspec : key ((b' : ℕ) : ℤ) = key i :=
    Nat.findGreatest_spec (P := fun n => key (n : ℤ) = key i) hle hP
  have hible : i.toNat ≤ b' :=
    Nat.le_findGreatest (P := fun n => key (n : ℤ) = key i) hle hP
  have hub : b' ≤ N.toNat - 1 := Nat.findGreatest_le _
  refine ⟨(b' : ℤ), by omega, by omega, hspec, ?_, ?_⟩
  · by_cases hbN : (b' : ℤ) = N - 1
    · left
      exact hbN
    · right
      intro heq
      have : b' + 1 ≤ b' :=
        Nat.le_findGreatest (P := fun n => key (n : ℤ) = key i) (by omega)
          (by show key (((b' + 1 : ℕ)) : ℤ) = key i; push_cast; rw [← heq]; exact hspec)
      omega
  · intro j hj hjN hkj
    have : j.toNat ≤ b' :=
      Nat.le_findGreatest (P := fun n => key (n : ℤ) = key i) (by omega)
        (by show key ((j.toNat : ℕ) : ℤ) = key i; rw [Int.toNat_of_nonneg hj]; exact hkj)
    omega

theorem kernIdentifyCellStartEnd_characterization (N : ℤ) (key : ℤ → ℤ) (hN : 0 ≤ N)
    (hs : SortedKeys N key) :
    (∀ i : ℤ, 0 ≤ i → i < N →
        ((kernIdentifyCellStartEnd N key (fun _ => -1) (fun _ => -1)).1 (key i) = i ↔
          isRunStart key i)) ∧
      (∀ i : ℤ, 0 ≤ i → i < N →
        ((kernIdentifyCellStartEnd N key (fun _ => -1) (fun _ => -1)).2 (key i) = i + 1 ↔
          isRunEnd N key i)) ∧
      (∀ c : ℤ, (∃ i : ℤ, 0 ≤ i ∧ i < N ∧ key i = c) →
        (kernIdentifyCellStartEnd N key (fun _ => -1) (fun _ => -1)).2 c -
            (kernIdentifyCellStartEnd N key (fun _ => -1) (fun _ => -1)).1 c =
          (((Finset.range N.toNat).filter fun n : ℕ => key (n : ℤ) = c).card : ℤ)) ∧
      ∑ c ∈ (Finset.range N.toNat).image (fun n : ℕ => key (n : ℤ)),
          ((kernIdentifyCellStartEnd N key (fun _ => -1) (fun _ => -1)).2 c -
            (kernIdentifyCellStartEnd N key (fun _ => -1) (fun _ => -1)).1 c) = N := by
  have hNN : ((N.toNat : ℕ) : ℤ) = N := Int.toNat_of_nonneg hN
  obtain ⟨hst1, hst2⟩ := identifyAux_start N key hs N.toNat (by omega)
  obtain ⟨hen1, hen2⟩ := identifyAux_end N key hs N.toNat (by omega)
  rw [hNN] at hst1 hst2 hen1 hen2
  rw [kernIdentifyCellStartEnd_eq_aux]
  set R := identifyAux N key (fun _ => -1, fun _ => -1) N.toNat with hR
  have part1 : ∀ i : ℤ, 0 ≤ i → i < N → (R.1 (key i) = i ↔ isRunStart key i) := by
    intro i h0 hiN
    constructor
    · intro hEq
      by_contra hns
      obtain ⟨a, ha0, hai, hka, hsa, hmin⟩ := exists_runStart key h0
      have hne : a ≠ i := by
        intro h
        exact hns (h ▸ hsa)
      have hval : R.1 (key a) = a := hst1 a ha0 (by omega) hsa
      rw [hka] at hval
      omega
    · exact hst1 i h0 hiN
  have part2 : ∀ i : ℤ, 0 ≤ i → i < N → (R.2 (key i) = i + 1 ↔ isRunEnd N key i) := by
    intro i h0 hiN
    constructor
    · intro hEq
      by_contra hne'
      obtain ⟨b, hib, hbN, hkb, heb, hmax⟩ := exists_runEnd N key h0 hiN
      have hne : b ≠ i := by
        intro h
        exact hne' (h ▸ heb)
      have hval : R.2 (key b) = b + 1 := hen1 b (by omega) hbN heb
      rw [hkb] at hval
      omega
    · exact hen1 i h0 hiN
  have part3 : ∀ c : ℤ, (∃ i : ℤ, 0 ≤ i ∧ i < N ∧ key i = c) →
      R.2 c - R.1 c =
        (((Finset.range N.toNat).filter fun n : ℕ => key (n : ℤ) = c).card : ℤ) := by
    rintro c ⟨i0, h0, hiN, hkc⟩
    obtain ⟨a, ha0, hai, hka, hsa, hmin⟩ := exists_runStart key h0
    obtain ⟨b, hib, hbN, hkb, heb, hmax⟩ := exists_runEnd N key h0 hiN
    have hRa : R.1 c = a := by
      have := hst1 a ha0 (by omega) hsa
      rw [hka, hkc] at this
      exact this
    have hRb : R.2 c = b + 1 := by
      have := hen1 b (by omega) hbN heb
      rw [hkb, hkc] at this
      exact this
    have hkab : key a = key b := by rw [hka, hkb]
    have hfilter : ((Finset.range N.toNat).filter fun n : ℕ => key (n : ℤ) = c) =
        Finset.Icc a.toNat b.toNat := by
      ext n
      simp only [Finset.mem_filter, Finset.mem_range, Finset.mem_Icc]
      constructor
      · rintro ⟨hn, hkn⟩
        have hki : key (n : ℤ) = key i0 := by rw [hkn, hkc]
        have h1 := hmin (n : ℤ) (by positivity) hki
        have h2 := hmax (n : ℤ) (by positivity) (by omega) hki
        omega
      · rintro ⟨h1, h2⟩
        have han : a ≤ (n : ℤ) := by omega
        have hnb : (n : ℤ) ≤ b := by omega
        have := sorted_squeeze N key hs ha0 han hnb hbN hkab
        constructor
        · omega
        · rw [this, hka, hkc]
    rw [hfilter, Nat.card_Icc, hRa, hRb]
    omega
  refine ⟨part1, part2, part3, ?_⟩
  have hcard := Finset.card_eq_sum_card_image (fun n : ℕ => key (n : ℤ)) (Finset.range N.toNat)
  calc
    ∑ c ∈ (Finset.range N.toNat).image (fun n : ℕ => key (n : ℤ)), (R.2 c - R.1 c) =
        ∑ c ∈ (Finset.range N.toNat).image (fun n : ℕ => key (n : ℤ)),
          ((((Finset.range N.toNat).filter fun n : ℕ => key (n : ℤ) = c).card : ℕ) : ℤ) := by
      refine Finset.sum_congr rfl fun c hc => ?_
      obtain ⟨n, hn, hkn⟩ := Finset.mem_image.1 hc
      have hnr : n < N.toNat := Finset.mem_range.1 hn
      exact part3 c ⟨(n : ℤ), by positivity, by omega, hkn⟩
    _ = ((∑ c ∈ (Finset.range N.toNat).image (fun n : ℕ => key (n : ℤ)),
          ((Finset.range N.toNat).filter fun n : ℕ => key (n : ℤ) = c).card : ℕ) : ℤ) := by
      push_cast
      rfl
    _ = (((Finset.range N.toNat).card : ℕ) : ℤ) := by rw [← hcard]
    _ = N := by simp [hNN]

/-! ### Properties of the speed clamp -/

theorem clampSpeed_of_normSq_le (v : Vec3) (h : v.normSq ≤ maxSpeed ^ 2) :
    clampSpeed v = v.toR := by
  have hle : Vec3R.length v.toR ≤ ((maxSpeed : ℚ) : ℝ) := by
    rw [Vec3R.length, Vec3.normSq_toR]
    have h' : ((v.normSq : ℝ)) ≤ ((maxSpeed : ℚ) : ℝ) ^ 2 := by exact_mod_cast h
    have hm : (0 : ℝ) ≤ ((maxSpeed : ℚ) : ℝ) := by norm_num [maxSpeed]
    calc
      Real.sqrt (v.normSq : ℝ) ≤ Real.sqrt (((maxSpeed : ℚ) : ℝ) ^ 2) := Real.sqrt_le_sqrt h'
      _ = ((maxSpeed : ℚ) : ℝ) := Real.sqrt_sq hm
  unfold clampSpeed
  rw [if_neg (not_lt.mpr hle)]

theorem clampSpeed_of_normSq_gt (v : Vec3) (h : maxSpeed ^ 2 < v.normSq) :
    clampSpeed v = Vec3R.scale (((maxSpeed : ℚ) : ℝ) / Vec3R.length v.toR) v.toR := by
  have hlt : ((maxSpeed : ℚ) : ℝ) < Vec3R.length v.toR := by
    rw [Vec3R.length, Vec3.normSq_toR, Real.lt_sqrt (by norm_num [maxSpeed])]
    exact_mod_cast h
  unfold clampSpeed
  rw [if_pos hlt]

theorem Vec3R.normSq_scale (k : ℝ) (a : Vec3R) :
    (Vec3R.scale k a).normSq = k ^ 2 * a.normSq := by
  simp only [Vec3R.scale, Vec3R.normSq]
  ring

/-! ### Per-slot characterization of the brute-force velocity kernel -/

theorem bruteForce_fold_apply (N : ℤ) (pos vel1 : ℤ → Vec3) (vel2 : ℤ → Vec3R) (n : ℕ) :
    ∀ i : ℤ,
      ((List.range n).foldl
          (fun v2 (idx : ℕ) =>
            Function.update v2 ((idx : ℕ) : ℤ) (computeVelocityChange N ((idx : ℕ) : ℤ) pos vel1))
          vel2) i =
        if 0 ≤ i ∧ i < (n : ℤ) then computeVelocityChange N i pos vel1 else vel2 i := by
  induction n with
  | zero =>
    intro i
    rw [if_neg (by omega)]
    rfl
  | succ n ih =>
    intro i
    rw [List.range_succ, List.foldl_append]
    simp only [List.foldl_cons, List.foldl_nil]
    by_cases hin : i = (n : ℤ)
    · subst hin
      have hc : 0 ≤ (n : ℤ) ∧ (n : ℤ) < ((n + 1 : ℕ) : ℤ) := by
        constructor
        · positivity
        · push_cast
          omega
      rw [Function.update_same, if_pos hc]
    · rw [Function.update_noteq hin, ih i]
      by_cases hc : 0 ≤ i ∧ i < (n : ℤ)
      · rw [if_pos hc, if_pos (by push_cast; omega)]
      · rw [if_neg hc, if_neg (by push_cast at hc ⊢; omega)]

/-- Each slot of the brute-force output: slot `i` with `0 ≤ i < N` holds
`computeVelocityChange N i pos vel1`; every other slot retains the stale
buffer contents. -/
theorem kernUpdateVelocityBruteForce_apply (N : ℤ) (pos vel1 : ℤ → Vec3) (vel2 : ℤ → Vec3R)
    (i : ℤ) :
    kernUpdateVelocityBruteForce N pos vel1 vel2 i =
      if 0 ≤ i ∧ i < N then computeVelocityChange N i pos vel1 else vel2 i := by
  unfold kernUpdateVelocityBruteForce
  rw [bruteForce_fold_apply]
  rcases le_or_lt 0 N with hN | hN
  · rw [Int.toNat_of_nonneg hN]
  · have h1 : ¬(0 ≤ i ∧ i < ((N.toNat : ℕ) : ℤ)) := by omega
    have h2 : ¬(0 ≤ i ∧ i < N) := by omega
    rw [if_neg h1, if_neg h2]

/-! ### A concrete two-particle scenario exercising the grid pipeline

Particle 0 sits at the origin, in grid cell `(11,11,11)` with linear id 5577;
particle 1 sits at `(-1,0,0)`, in grid cell `(10,11,11)` with linear id 5576.
They are distance 1 apart, within every rule distance.  The two cell ids are
distinct, so the key sort has a unique outcome: sort position 0 holds
particle 1 (key 5576) and sort position 1 holds particle 0 (key 5577). -/

def posA : ℤ → Vec3 :=
  fun i => if i = 0 then ⟨0, 0, 0⟩ else if i = 1 then ⟨-1, 0, 0⟩ else Vec3.zero

def velA : ℤ → Vec3 := fun _ => Vec3.zero

/-- Stale contents of the next-generation velocity buffer. -/
noncomputable def vel2A : ℤ → Vec3R := fun _ => Vec3.toR Vec3.zero

/-- The cell ids `kernComputeIndices` computes for `posA`. -/
def keysUnsortedA : ℤ → ℤ :=
  (kernComputeIndices 2 gridSideCount gridMinimum gridInverseCellWidth posA
    (fun _ => -1) (fun _ => -1)).2

/-- The sorted cell-id keys: `[5577, 5576]` sorts to `[5576, 5577]`. -/
def keysSortedA : ℤ → ℤ := fun i => if i = 0 then 5576 else if i = 1 then 5577 else 0

/-- The array-index payload carried by the sort. -/
def arrSortedA : ℤ → ℤ := fun i => if i = 0 then 1 else if i = 1 then 0 else 0

/-- The cell range buffers: reset to the sentinel -1 by `kernResetIntBuffer`,
then filled by `kernIdentifyCellStartEnd` from the sorted keys. -/
def rangesA : (ℤ → ℤ) × (ℤ → ℤ) :=
  kernIdentifyCellStartEnd 2 keysSortedA
    (kernResetIntBuffer gridCellCount (-1) fun _ => 0)
    (kernResetIntBuffer gridCellCount (-1) fun _ => 0)

/-! ### Behavior of the boundary wrap -/

theorem wrapCoord_of_lt (c : ℚ) (h : c < -scene_scale) : wrapCoord c = scene_scale := by
  unfold wrapCoord
  dsimp only
  rw [if_pos h, if_neg (by norm_num [scene_scale])]

theorem wrapCoord_of_gt (c : ℚ) (h : c > scene_scale) : wrapCoord c = -scene_scale := by
  have h1 : ¬c < -scene_scale := by
    unfold scene_scale at *
    linarith
  unfold wrapCoord
  dsimp only
  rw [if_neg h1, if_pos h]

theorem wrapCoord_mem (c : ℚ) : -scene_scale ≤ wrapCoord c ∧ wrapCoord c ≤ scene_scale := by
  unfold wrapCoord
  dsimp only
  split_ifs with h1 h2 <;> constructor <;> (unfold scene_scale at *; linarith)

theorem wrapCoord_fixed (c : ℚ) (h : c = -scene_scale ∨ c = scene_scale) : wrapCoord c = c := by
  rcases h with h | h <;> subst h <;> decide

theorem truncI_of_nonneg (q : ℚ) (h : 0 ≤ q) : truncI q = ⌊q⌋ := by
  unfold truncI
  rw [if_pos h]

/-- **C4.**  For every particle and every axis, after the integrator adds
`velocity × dt` to the position, a resulting coordinate below `-scene_scale`
is set to exactly `+scene_scale` and a resulting coordinate above
`+scene_scale` is set to exactly `-scene_scale` (hard reset, not modulo);
concretely, with `scene_scale = 100`, a particle at `x = 100.5` that drifts
further positive integrates to `x = -100` exactly. -/
theorem kernUpdatePos_wrap (N : ℤ) (dt : ℚ) (pos vel : ℤ → Vec3) (i : ℤ)
    (h0 : 0 ≤ i) (hN : i < N) :
    (((pos i).x + dt * (vel i).x < -scene_scale →
        (kernUpdatePos N dt pos vel i).x = scene_scale) ∧
      (scene_scale < (pos i).x + dt * (vel i).x →
        (kernUpdatePos N dt pos vel i).x = -scene_scale)) ∧
    (((pos i).y + dt * (vel i).y < -scene_scale →
        (kernUpdatePos N dt pos vel i).y = scene_scale) ∧
      (scene_scale < (pos i).y + dt * (vel i).y →
        (kernUpdatePos N dt pos vel i).y = -scene_scale)) ∧
    (((pos i).z + dt * (vel i).z < -scene_scale →
        (kernUpdatePos N dt pos vel i).z = scene_scale) ∧
      (scene_scale < (pos i).z + dt * (vel i).z →
        (kernUpdatePos N dt pos vel i).z = -scene_scale)) ∧
    (kernUpdatePos 1 1 (fun _ => ⟨201 / 2, 0, 0⟩) (fun _ => ⟨1, 0, 0⟩) 0).x = -scene_scale := by
  have hker : kernUpdatePos N dt pos vel i =
      ⟨wrapCoord ((pos i).x + dt * (vel i).x), wrapCoord ((pos i).y + dt * (vel i).y),
        wrapCoord ((pos i).z + dt * (vel i).z)⟩ := by
    unfold kernUpdatePos
    rw [if_pos ⟨h0, hN⟩]
    rfl
  rw [hker]
  refine ⟨⟨fun h => wrapCoord_of_lt _ h, fun h => wrapCoord_of_gt _ h⟩,
    ⟨fun h => wrapCoord_of_lt _ h, fun h => wrapCoord_of_gt _ h⟩,
    ⟨fun h => wrapCoord_of_lt _ h, fun h => wrapCoord_of_gt _ h⟩, ?_⟩
  norm_num [kernUpdatePos, wrapCoord, Vec3.add, Vec3.scale, scene_scale]

theorem kernUpdatePos_wrap_witness :
    (kernUpdatePos 1 1 (fun _ => ⟨-150, 0, 0⟩) (fun _ => ⟨-1, 0, 0⟩) 0).x = scene_scale :=
  (kernUpdatePos_wrap 1 1 (fun _ => ⟨-150, 0, 0⟩) (fun _ => ⟨-1, 0, 0⟩) 0 (by decide)
    (by decide)).1.1 (by norm_num [scene_scale])

/-- **C10.**  For every particle whose coordinates all lie in
`[-scene_scale, scene_scale]` before integration, the integrator leaves every
coordinate in that closed interval, for any velocity and timestep; moreover a
coordinate that lands exactly on `-scene_scale` or `+scene_scale` is left
unchanged, because both wrap tests are strict. -/
theorem kernUpdatePos_stays_in_bounds (N : ℤ) (dt : ℚ) (pos vel : ℤ → Vec3) (i : ℤ)
    (h0 : 0 ≤ i) (hN : i < N)
    (hx : -scene_scale ≤ (pos i).x ∧ (pos i).x ≤ scene_scale)
    (hy : -scene_scale ≤ (pos i).y ∧ (pos i).y ≤ scene_scale)
    (hz : -scene_scale ≤ (pos i).z ∧ (pos i).z ≤ scene_scale) :
    ((-scene_scale ≤ (kernUpdatePos N dt pos vel i).x ∧
        (kernUpdatePos N dt pos vel i).x ≤ scene_scale) ∧
      (-scene_scale ≤ (kernUpdatePos N dt pos vel i).y ∧
        (kernUpdatePos N dt pos vel i).y ≤ scene_scale) ∧
      (-scene_scale ≤ (kernUpdatePos N dt pos vel i).z ∧
        (kernUpdatePos N dt pos vel i).z ≤ scene_scale)) ∧
    ∀ c : ℚ, c = -scene_scale ∨ c = scene_scale → wrapCoord c = c := by
  have hker : kernUpdatePos N dt pos vel i =
      ⟨wrapCoord ((pos i).x + dt * (vel i).x), wrapCoord ((pos i).y + dt * (vel i).y),
        wrapCoord ((pos i).z + dt * (vel i).z)⟩ := by
    unfold kernUpdatePos
    rw [if_pos ⟨h0, hN⟩]
    rfl
  rw [hker]
  exact ⟨⟨wrapCoord_mem _, wrapCoord_mem _, wrapCoord_mem _⟩, fun c hc => wrapCoord_fixed c hc⟩

theorem kernUpdatePos_stays_in_bounds_witness :
    (-scene_scale ≤ (kernUpdatePos 1 1 (fun _ => ⟨100, 0, 0⟩) (fun _ => ⟨7, 0, 0⟩) 0).x ∧
      (kernUpdatePos 1 1 (fun _ => ⟨100, 0, 0⟩) (fun _ => ⟨7, 0, 0⟩) 0).x ≤ scene_scale) ∧
    wrapCoord scene_scale = scene_scale :=
  ⟨(kernUpdatePos_stays_in_bounds 1 1 (fun _ => ⟨100, 0, 0⟩) (fun _ => ⟨7, 0, 0⟩) 0
      (by decide) (by decide) (by norm_num [scene_scale]) (by norm_num [scene_scale])
      (by norm_num [scene_scale])).1.1,
    (kernUpdatePos_stays_in_bounds 1 1 (fun _ => ⟨100, 0, 0⟩) (fun _ => ⟨7, 0, 0⟩) 0
      (by decide) (by decide) (by norm_num [scene_scale]) (by norm_num [scene_scale])
      (by norm_num [scene_scale])).2 scene_scale (Or.inr rfl)⟩

/-- **C7.**  For every particle whose position lies within
`[gridMin, gridMin + side · cellWidth)` on every axis, `kernComputeIndices`
computes the integer cell coordinate `floor((position - gridMin) * (1/cellWidth))`
per axis (the C truncation agrees with `floor` on these nonnegative values)
and writes the linear id `x + y·side + z·side²` for that particle. -/
theorem kernComputeIndices_spec (N gridResolution : ℤ) (gridMin : Vec3) (cellWidth : ℚ)
    (pos : ℤ → Vec3) (indices gridIndices : ℤ → ℤ) (i : ℤ)
    (hcw : 0 < cellWidth) (h0 : 0 ≤ i) (hN : i < N)
    (hx : gridMin.x ≤ (pos i).x ∧ (pos i).x < gridMin.x + (gridResolution : ℚ) * cellWidth)
    (hy : gridMin.y ≤ (pos i).y ∧ (pos i).y < gridMin.y + (gridResolution : ℚ) * cellWidth)
    (hz : gridMin.z ≤ (pos i).z ∧ (pos i).z < gridMin.z + (gridResolution : ℚ) * cellWidth) :
    (kernComputeIndices N gridResolution gridMin (1 / cellWidth) pos
        indices gridIndices).2 i =
      gridIndex3Dto1D
        ⌊((pos i).x - gridMin.x) * (1 / cellWidth)⌋
        ⌊((pos i).y - gridMin.y) * (1 / cellWidth)⌋
        ⌊((pos i).z - gridMin.z) * (1 / cellWidth)⌋
        gridResolution := by
  have hnn : ∀ p m : ℚ, m ≤ p → 0 ≤ (p - m) * (1 / cellWidth) := by
    intro p m hmp
    apply mul_nonneg (by linarith)
    positivity
  show (if 0 ≤ i ∧ i < N then _ else _) = _
  rw [if_pos ⟨h0, hN⟩, truncI_of_nonneg _ (hnn _ _ hx.1), truncI_of_nonneg _ (hnn _ _ hy.1),
    truncI_of_nonneg _ (hnn _ _ hz.1)]

theorem kernComputeIndices_spec_witness :
    (kernComputeIndices 2 gridSideCount gridMinimum (1 / gridCellWidth) posA
        (fun _ => -1) (fun _ => -1)).2 0 = 5577 := by
  have h := kernComputeIndices_spec 2 gridSideCount gridMinimum gridCellWidth posA
    (fun _ => -1) (fun _ => -1) 0
    (by norm_num [gridCellWidth, rule1Distance, rule2Distance, rule3Distance])
    (by decide) (by decide)
    (by norm_num [gridMinimum, posA, gridSideCount, halfSideCount, gridCellWidth, halfGridWidth,
      truncI, scene_scale, rule1Distance, rule2Distance, rule3Distance])
    (by norm_num [gridMinimum, posA, gridSideCount, halfSideCount, gridCellWidth, halfGridWidth,
      truncI, scene_scale, rule1Distance, rule2Distance, rule3Distance])
    (by norm_num [gridMinimum, posA, gridSideCount, halfSideCount, gridCellWidth, halfGridWidth,
      truncI, scene_scale, rule1Distance, rule2Distance, rule3Distance])
  rw [h]
  norm_num [gridMinimum, posA, gridSideCount, halfSideCount, gridCellWidth, halfGridWidth,
    truncI, scene_scale, rule1Distance, rule2Distance, rule3Distance, gridIndex3Dto1D]

/-- **C2** (code-bug evaluation).  An isolated particle — here `N = 1`, so no
other particle exists at all — at position `(100,0,0)` with velocity zero:
`kernUpdateVelocityRule1` contributes `(-1,0,0)`, not zero, because with
`count == 0` the code still subtracts `pos[iSelf]` from the zero accumulator;
consequently the stored `velocityNext` is `(-1,0,0) ≠ velocityCurrent = 0`. -/
theorem isolated_particle_velocity_changes :
    kernUpdateVelocityRule1 1 0 (fun _ => ⟨100, 0, 0⟩) = ⟨-1, 0, 0⟩ ∧
      computeVelocityChange 1 0 (fun _ => ⟨100, 0, 0⟩) (fun _ => Vec3.zero) =
        Vec3.toR ⟨-1, 0, 0⟩ ∧
      computeVelocityChange 1 0 (fun _ => ⟨100, 0, 0⟩) (fun _ => Vec3.zero) ≠
        Vec3.toR Vec3.zero := by
  have h1 : kernUpdateVelocityRule1 1 0 (fun _ => ⟨100, 0, 0⟩) = ⟨-1, 0, 0⟩ := by
    norm_num [kernUpdateVelocityRule1, Vec3.zero, Vec3.sub, Vec3.scale, rule1Scale,
      List.range_succ, show (1 : ℤ).toNat = 1 from rfl]
  have hpre : computeVelocityChangePre 1 0 (fun _ => ⟨100, 0, 0⟩) (fun _ => Vec3.zero) =
      ⟨-1, 0, 0⟩ := by
    norm_num [computeVelocityChangePre, kernUpdateVelocityRule1, kernUpdateVelocityRule2,
      kernUpdateVelocityRule3, Vec3.add, Vec3.sub, Vec3.scale, Vec3.zero, rule1Scale,
      rule2Scale, rule3Scale, List.range_succ, show (1 : ℤ).toNat = 1 from rfl]
  have h2 : computeVelocityChange 1 0 (fun _ => ⟨100, 0, 0⟩) (fun _ => Vec3.zero) =
      Vec3.toR ⟨-1, 0, 0⟩ := by
    unfold computeVelocityChange
    rw [hpre, clampSpeed_of_normSq_le _ (by norm_num [Vec3.normSq, maxSpeed])]
  refine ⟨h1, h2, ?_⟩
  rw [h2]
  intro h
  have hx := congrArg Vec3R.x h
  simp only [Vec3.toR, Vec3.zero] at hx
  norm_num at hx

/-- **C5.**  The combined result `rule1 + rule2 + rule3 + velocityCurrent` is
stored unchanged when its magnitude is at most `maxSpeed`, and is rescaled by
the positive factor `maxSpeed / length` — a uniform rescaling that preserves
its direction — to magnitude exactly `maxSpeed` when its magnitude exceeds
`maxSpeed`. -/
theorem computeVelocityChange_clamp (N iSelf : ℤ) (pos vel : ℤ → Vec3) :
    ((computeVelocityChangePre N iSelf pos vel).normSq ≤ maxSpeed ^ 2 →
        computeVelocityChange N iSelf pos vel =
          (computeVelocityChangePre N iSelf pos vel).toR) ∧
      (maxSpeed ^ 2 < (computeVelocityChangePre N iSelf pos vel).normSq →
        Vec3R.length (computeVelocityChange N iSelf pos vel) = ((maxSpeed : ℚ) : ℝ) ∧
          ∃ c : ℝ, 0 < c ∧
            computeVelocityChange N iSelf pos vel =
              Vec3R.scale c (computeVelocityChangePre N iSelf pos vel).toR) := by
  constructor
  · intro h
    unfold computeVelocityChange
    rw [clampSpeed_of_normSq_le _ h]
  · intro h
    have hs0 : (0 : ℝ) < ((computeVelocityChangePre N iSelf pos vel).normSq : ℝ) := by
      have h1 : (0 : ℚ) < (computeVelocityChangePre N iSelf pos vel).normSq := by
        have := h
        norm_num [maxSpeed] at this ⊢
        linarith
      exact_mod_cast h1
    have hl0 : 0 < Vec3R.length (computeVelocityChangePre N iSelf pos vel).toR := by
      rw [Vec3R.length, Vec3.normSq_toR]
      exact Real.sqrt_pos.mpr hs0
    have heq := clampSpeed_of_normSq_gt _ h
    unfold computeVelocityChange
    rw [heq]
    constructor
    · have hsq : Vec3R.length (computeVelocityChangePre N iSelf pos vel).toR ^ 2 =
          ((computeVelocityChangePre N iSelf pos vel).normSq : ℝ) := by
        rw [Vec3R.length, Vec3.normSq_toR]
        exact Real.sq_sqrt (le_of_lt hs0)
      rw [Vec3R.length, Vec3R.normSq_scale, Vec3.normSq_toR, div_pow, hsq,
        div_mul_cancel₀ _ (ne_of_gt hs0)]
      exact Real.sqrt_sq (by norm_num [maxSpeed])
    · exact ⟨((maxSpeed : ℚ) : ℝ) / Vec3R.length (computeVelocityChangePre N iSelf pos vel).toR,
        div_pos (by norm_num [maxSpeed]) hl0, rfl⟩

theorem computeVelocityChange_clamp_witness :
    Vec3R.length (computeVelocityChange 1 0 (fun _ => Vec3.zero) (fun _ => ⟨2, 0, 0⟩)) =
      ((maxSpeed : ℚ) : ℝ) := by
  have hpre : computeVelocityChangePre 1 0 (fun _ => Vec3.zero) (fun _ => ⟨2, 0, 0⟩) =
      ⟨2, 0, 0⟩ := by
    norm_num [computeVelocityChangePre, kernUpdateVelocityRule1, kernUpdateVelocityRule2,
      kernUpdateVelocityRule3, Vec3.add, Vec3.sub, Vec3.scale, Vec3.zero, rule1Scale,
      rule2Scale, rule3Scale, List.range_succ, show (1 : ℤ).toNat = 1 from rfl]
  exact ((computeVelocityChange_clamp 1 0 (fun _ => Vec3.zero) (fun _ => ⟨2, 0, 0⟩)).2
    (by rw [hpre]; norm_num [Vec3.normSq, maxSpeed])).1

theorem kernIdentifyCellStartEnd_characterization_witness :
    (kernIdentifyCellStartEnd 2 keysSortedA (fun _ => -1) (fun _ => -1)).2 5576 -
        (kernIdentifyCellStartEnd 2 keysSortedA (fun _ => -1) (fun _ => -1)).1 5576 =
      (((Finset.range (2 : ℤ).toNat).filter fun n : ℕ => keysSortedA (n : ℤ) = 5576).card :
        ℤ) := by
  have hs : SortedKeys 2 keysSortedA := by
    intro i j h0 hij hj
    have hi : i = 0 ∨ i = 1 := by omega
    have hjj : j = 0 ∨ j = 1 := by omega
    rcases hi with h | h <;> rcases hjj with h' | h' <;> subst h <;> subst h' <;>
      simp_all [keysSortedA]
  exact (kernIdentifyCellStartEnd_characterization 2 keysSortedA (by norm_num) hs).2.2.1 5576
    ⟨0, by norm_num, by norm_num, by norm_num [keysSortedA]⟩

/-- The position buffer after the coherent variant's physical reordering:
sort position 0 holds particle 1, sort position 1 holds particle 0. -/
def posSortedA : ℤ → Vec3 := fun i => posA (arrSortedA i)

/-- The velocity buffer after the coherent variant's physical reordering. -/
def velSortedA : ℤ → Vec3 := fun i => velA (arrSortedA i)

theorem rangesA_facts :
    rangesA.1 5576 = 0 ∧ rangesA.2 5576 = 1 ∧ rangesA.1 5577 = 1 ∧ rangesA.2 5577 = 2 := by
  norm_num [rangesA, kernIdentifyCellStartEnd, identifyBody, isRunStart, isRunEnd,
    kernResetIntBuffer, keysSortedA, gridCellCount, gridSideCount, halfSideCount, gridCellWidth,
    truncI, scene_scale, rule1Distance, rule2Distance, rule3Distance, Function.update,
    List.range_succ, show (2 : ℤ).toNat = 2 from rfl]

theorem keysUnsortedA_facts : keysUnsortedA 0 = 5577 ∧ keysUnsortedA 1 = 5576 := by
  norm_num [keysUnsortedA, kernComputeIndices, posA, gridMinimum, gridSideCount, halfSideCount,
    gridInverseCellWidth, gridCellWidth, halfGridWidth, truncI, gridIndex3Dto1D, scene_scale,
    rule1Distance, rule2Distance, rule3Distance, Vec3.zero]

theorem scatteredPreA_one :
    scatteredPre 2 gridSideCount gridMinimum gridInverseCellWidth gridCellWidth
      rangesA.1 rangesA.2 arrSortedA posA velA 1 = Vec3.zero := by
  norm_num [scatteredPre, neighborCellVec, accumNeighbor, combineRules, RuleAcc.init, intList,
    rangesA, kernIdentifyCellStartEnd, identifyBody, isRunStart, isRunEnd, kernResetIntBuffer,
    keysSortedA, arrSortedA, posA, velA, gridSideCount, halfSideCount, gridCellWidth,
    gridCellCount, gridInverseCellWidth, halfGridWidth, gridMinimum, truncI, fmodQ,
    gridIndex3Dto1D, Vec3.add, Vec3.sub, Vec3.scale, Vec3.zero, Vec3.normSq,
    rule1Distance, rule2Distance, rule3Distance, rule1Scale, rule2Scale, rule3Scale, scene_scale,
    Function.update, List.range_succ, show (2 : ℤ).toNat = 2 from rfl]

theorem scatteredPreA_zero :
    scatteredPre 2 gridSideCount gridMinimum gridInverseCellWidth gridCellWidth
      rangesA.1 rangesA.2 arrSortedA posA velA 0 = ⟨-9 / 100, 0, 0⟩ := by
  norm_num [scatteredPre, neighborCellVec, accumNeighbor, combineRules, RuleAcc.init, intList,
    rangesA, kernIdentifyCellStartEnd, identifyBody, isRunStart, isRunEnd, kernResetIntBuffer,
    keysSortedA, arrSortedA, posA, velA, gridSideCount, halfSideCount, gridCellWidth,
    gridCellCount, gridInverseCellWidth, halfGridWidth, gridMinimum, truncI, fmodQ,
    gridIndex3Dto1D, Vec3.add, Vec3.sub, Vec3.scale, Vec3.zero, Vec3.normSq,
    rule1Distance, rule2Distance, rule3Distance, rule1Scale, rule2Scale, rule3Scale, scene_scale,
    Function.update, List.range_succ, show (2 : ℤ).toNat = 2 from rfl]

theorem coherentPreA_one :
    coherentPre 2 gridSideCount gridMinimum gridInverseCellWidth gridCellWidth
      rangesA.1 rangesA.2 posSortedA velSortedA 1 = Vec3.zero := by
  norm_num [coherentPre, neighborCellVec, accumNeighbor, combineRules, RuleAcc.init, intList,
    rangesA, kernIdentifyCellStartEnd, identifyBody, isRunStart, isRunEnd, kernResetIntBuffer,
    keysSortedA, arrSortedA, posSortedA, velSortedA, posA, velA, gridSideCount, halfSideCount,
    gridCellWidth, gridCellCount, gridInverseCellWidth, halfGridWidth, gridMinimum, truncI,
    fmodQ, gridIndex3Dto1D, Vec3.add, Vec3.sub, Vec3.scale, Vec3.zero, Vec3.normSq,
    rule1Distance, rule2Distance, rule3Distance, rule1Scale, rule2Scale, rule3Scale, scene_scale,
    Function.update, List.range_succ, show (2 : ℤ).toNat = 2 from rfl]

theorem bruteForcePreA_zero : computeVelocityChangePre 2 0 posA velA = ⟨9 / 100, 0, 0⟩ := by
  norm_num [computeVelocityChangePre, kernUpdateVelocityRule1, kernUpdateVelocityRule2,
    kernUpdateVelocityRule3, posA, velA, Vec3.add, Vec3.sub, Vec3.scale, Vec3.zero, Vec3.normSq,
    rule1Distance, rule2Distance, rule3Distance, rule1Scale, rule2Scale, rule3Scale,
    List.range_succ, show (2 : ℤ).toNat = 2 from rfl]

theorem bruteForceA_zero :
    kernUpdateVelocityBruteForce 2 posA velA vel2A 0 = Vec3.toR ⟨9 / 100, 0, 0⟩ := by
  rw [kernUpdateVelocityBruteForce_apply, if_pos (by norm_num)]
  unfold computeVelocityChange
  rw [bruteForcePreA_zero, clampSpeed_of_normSq_le _ (by norm_num [Vec3.normSq, maxSpeed])]

theorem scatteredA_zero :
    kernUpdateVelNeighborSearchScattered 2 gridSideCount gridMinimum gridInverseCellWidth
      gridCellWidth rangesA.1 rangesA.2 arrSortedA posA velA vel2A 0 = Vec3.toR Vec3.zero := by
  have hfold : kernUpdateVelNeighborSearchScattered 2 gridSideCount gridMinimum
      gridInverseCellWidth gridCellWidth rangesA.1 rangesA.2 arrSortedA posA velA vel2A 0 =
      clampSpeed (scatteredPre 2 gridSideCount gridMinimum gridInverseCellWidth gridCellWidth
        rangesA.1 rangesA.2 arrSortedA posA velA 1) := by
    unfold kernUpdateVelNeighborSearchScattered
    rw [show (2 : ℤ).toNat = 2 from rfl, show List.range 2 = [0, 1] from rfl]
    simp only [List.foldl_cons, List.foldl_nil, Nat.cast_zero, Nat.cast_one]
    rw [show arrSortedA 1 = 0 by norm_num [arrSortedA], Function.update_same]
  rw [hfold, scatteredPreA_one,
    clampSpeed_of_normSq_le _ (by norm_num [Vec3.normSq, Vec3.zero, maxSpeed])]

theorem coherentA_one :
    kernUpdateVelNeighborSearchCoherent 2 gridSideCount gridMinimum gridInverseCellWidth
      gridCellWidth rangesA.1 rangesA.2 posSortedA velSortedA vel2A 1 = Vec3.toR Vec3.zero := by
  unfold kernUpdateVelNeighborSearchCoherent
  rw [if_pos (by norm_num), coherentPreA_one,
    clampSpeed_of_normSq_le _ (by norm_num [Vec3.normSq, Vec3.zero, maxSpeed])]

/-- **C1** (code-bug evaluation).  Two particles one unit apart in adjacent
grid cells, both with velocity zero.  The sorted key/payload pair used is the
unique valid sort of the computed cell ids (the two keys are distinct).  The
brute-force pass stores `velocityNext = (9/100, 0, 0)` for particle 0, while
the scattered-grid pass stores `(0, 0, 0)` for it — its neighbor sits in the
cell whose range starts at sort position 0, which the guard `start > 0`
(kernel.cu line 570) skips.  The coherent-grid pass, evaluated on the
physically reordered buffers (particle 0 is at sort position 1 there), also
stores `(0, 0, 0)`.  The disagreement is 0.09 in exact arithmetic, not a
rounding artifact. -/
theorem strategies_disagree_on_two_boids :
    (keysUnsortedA 0 = 5577 ∧ keysUnsortedA 1 = 5576) ∧
      (keysSortedA 0 = keysUnsortedA (arrSortedA 0) ∧
        keysSortedA 1 = keysUnsortedA (arrSortedA 1) ∧ keysSortedA 0 ≤ keysSortedA 1) ∧
      kernUpdateVelocityBruteForce 2 posA velA vel2A 0 = Vec3.toR ⟨9 / 100, 0, 0⟩ ∧
      kernUpdateVelNeighborSearchScattered 2 gridSideCount gridMinimum gridInverseCellWidth
          gridCellWidth rangesA.1 rangesA.2 arrSortedA posA velA vel2A 0 =
        Vec3.toR Vec3.zero ∧
      kernUpdateVelNeighborSearchCoherent 2 gridSideCount gridMinimum gridInverseCellWidth
          gridCellWidth rangesA.1 rangesA.2 posSortedA velSortedA vel2A 1 =
        Vec3.toR Vec3.zero ∧
      kernUpdateVelNeighborSearchScattered 2 gridSideCount gridMinimum gridInverseCellWidth
          gridCellWidth rangesA.1 rangesA.2 arrSortedA posA velA vel2A 0 ≠
        kernUpdateVelocityBruteForce 2 posA velA vel2A 0 := by
  obtain ⟨hk0, hk1⟩ := keysUnsortedA_facts
  refine ⟨⟨hk0, hk1⟩, ⟨?_, ?_, by norm_num [keysSortedA]⟩, bruteForceA_zero, scatteredA_zero,
    coherentA_one, ?_⟩
  · rw [show arrSortedA 0 = 1 by norm_num [arrSortedA], hk1]
    norm_num [keysSortedA]
  · rw [show arrSortedA 1 = 0 by norm_num [arrSortedA], hk0]
    norm_num [keysSortedA]
  · rw [scatteredA_zero, bruteForceA_zero]
    intro h
    have hx := congrArg Vec3R.x h
    simp only [Vec3.toR, Vec3.zero] at hx
    norm_num at hx

/-- **C3** (code-bug evaluation).  In the same scenario, cell 5576 was written
this step with range `[0, 1)` — `start = 0 < 1 = end` — and the particle at
sort position 0 (particle 1) lies within every rule distance of particle 0.
The claim demands that this particle be fetched and evaluated, but the guard
`end > start && start > 0` (kernel.cu lines 570 and 737) rejects the cell, so
particle 0's rule accumulators stay empty: its combined pre-clamp output in
both grid kernels equals `combineRules RuleAcc.init`, the value obtained from
zero neighbor contributions. -/
theorem startZero_cell_contributes_no_neighbors :
    (rangesA.1 5576 = 0 ∧ rangesA.2 5576 = 1) ∧
      keysSortedA 0 = 5576 ∧ arrSortedA 0 = 1 ∧
      ((posA 0).sub (posA 1)).normSq < rule1Distance ^ 2 ∧
      ((posA 0).sub (posA 1)).normSq < rule2Distance ^ 2 ∧
      ((posA 0).sub (posA 1)).normSq < rule3Distance ^ 2 ∧
      scatteredPre 2 gridSideCount gridMinimum gridInverseCellWidth gridCellWidth
          rangesA.1 rangesA.2 arrSortedA posA velA 1 =
        combineRules RuleAcc.init (posA 0) (velA 0) ∧
      coherentPre 2 gridSideCount gridMinimum gridInverseCellWidth gridCellWidth
          rangesA.1 rangesA.2 posSortedA velSortedA 1 =
        combineRules RuleAcc.init (posSortedA 1) (velSortedA 1) := by
  obtain ⟨hr1, hr2, _, _⟩ := rangesA_facts
  refine ⟨⟨hr1, hr2⟩, by norm_num [keysSortedA], by norm_num [arrSortedA],
    by norm_num [posA, Vec3.sub, Vec3.normSq, rule1Distance],
    by norm_num [posA, Vec3.sub, Vec3.normSq, rule2Distance],
    by norm_num [posA, Vec3.sub, Vec3.normSq, rule3Distance], ?_, ?_⟩
  · rw [scatteredPreA_one]
    norm_num [combineRules, RuleAcc.init, posA, velA, Vec3.add, Vec3.sub, Vec3.scale, Vec3.zero,
      rule1Scale, rule2Scale, rule3Scale]
  · rw [coherentPreA_one]
    norm_num [combineRules, RuleAcc.init, posSortedA, velSortedA, arrSortedA, posA, velA,
      Vec3.add, Vec3.sub, Vec3.scale, Vec3.zero, rule1Scale, rule2Scale, rule3Scale]

/-! ### Exact-real mirror of the naive step, `Boids::stepSimulationNaive`

To state which buffers a stage writes, the simulation state is a record of
the three device buffers, and a kernel launch is a fold of per-thread writes,
each thread reading the accumulated state exactly as the kernel reads device
memory.  Velocities are exact reals here because the clamped velocities of
previous steps (which involve a square root) are fed back in across steps. -/

noncomputable def Vec3R.add (a b : Vec3R) : Vec3R := ⟨a.x + b.x, a.y + b.y, a.z + b.z⟩

noncomputable def Vec3R.sub (a b : Vec3R) : Vec3R := ⟨a.x - b.x, a.y - b.y, a.z - b.z⟩

def Vec3R.zero : Vec3R := ⟨0, 0, 0⟩

structure SimStateR where
  pos : ℤ → Vec3R
  vel1 : ℤ → Vec3R
  vel2 : ℤ → Vec3R

/-- `kernUpdateVelocityRule1` over exact reals (kernel.cu lines 251-269). -/
noncomputable def kernUpdateVelocityRule1R (N iSelf : ℤ) (pos : ℤ → Vec3R) : Vec3R :=
  let acc :=
    (List.range N.toNat).foldl
      (fun (acc : Vec3R × ℕ) (i : ℕ) =>
        if (i : ℤ) = iSelf then acc
        else if Vec3R.length ((pos iSelf).sub (pos (i : ℤ))) < ((rule1Distance : ℚ) : ℝ) then
          (acc.1.add (pos (i : ℤ)), acc.2 + 1)
        else acc)
      (Vec3R.zero, 0)
  let rule1 := if acc.2 ≠ 0 then Vec3R.scale (1 / (acc.2 : ℝ)) acc.1 else acc.1
  Vec3R.scale ((rule1Scale : ℚ) : ℝ) (rule1.sub (pos iSelf))

/-- `kernUpdateVelocityRule2` over exact reals (kernel.cu lines 271-286). -/
noncomputable def kernUpdateVelocityRule2R (N iSelf : ℤ) (pos : ℤ → Vec3R) : Vec3R :=
  let rule2 :=
    (List.range N.toNat).foldl
      (fun (acc : Vec3R) (i : ℕ) =>
        if (i : ℤ) = iSelf then acc
        else if Vec3R.length ((pos iSelf).sub (pos (i : ℤ))) < ((rule2Distance : ℚ) : ℝ) then
          acc.sub ((pos (i : ℤ)).sub (pos iSelf))
        else acc)
      Vec3R.zero
  Vec3R.scale ((rule2Scale : ℚ) : ℝ) rule2

/-- `kernUpdateVelocityRule3` over exact reals (kernel.cu lines 288-304). -/
noncomputable def kernUpdateVelocityRule3R (N iSelf : ℤ) (pos vel : ℤ → Vec3R) : Vec3R :=
  let acc :=
    (List.range N.toNat).foldl
      (fun (acc : Vec3R × ℕ) (i : ℕ) =>
        if (i : ℤ) = iSelf then acc
        else if Vec3R.length ((pos iSelf).sub (pos (i : ℤ))) < ((rule3Distance : ℚ) : ℝ) then
          (acc.1.add (vel (i : ℤ)), acc.2 + 1)
        else acc)
      (Vec3R.zero, 0)
  Vec3R.scale ((rule3Scale : ℚ) : ℝ) acc.1

/-- `computeVelocityChange` over exact reals (kernel.cu lines 312-329). -/
noncomputable def computeVelocityChangeR (N iSelf : ℤ) (pos vel : ℤ → Vec3R) : Vec3R :=
  let vel_change :=
    (((Vec3R.zero.add (kernUpdateVelocityRule1R N iSelf pos)).add
        (kernUpdateVelocityRule2R N iSelf pos)).add
        (kernUpdateVelocityRule3R N iSelf pos vel)).add (vel iSelf)
  if Vec3R.length vel_change > ((maxSpeed : ℚ) : ℝ) then
    Vec3R.scale (((maxSpeed : ℚ) : ℝ) / Vec3R.length vel_change) vel_change
  else vel_change

/-- `kernUpdateVelocityBruteForce` as a transformer of the full simulation
state: thread `index` writes only `vel2[index]` (kernel.cu line 347). -/
noncomputable def kernUpdateVelocityBruteForceR (N : ℤ) (s : SimStateR) : SimStateR :=
  (List.range N.toNat).foldl
    (fun st (idx : ℕ) =>
      { st with
        vel2 := Function.update st.vel2 ((idx : ℕ) : ℤ)
          (computeVelocityChangeR N ((idx : ℕ) : ℤ) st.pos st.vel1) })
    s

/-- The boundary wrap over exact reals (kernel.cu lines 364-370). -/
noncomputable def wrapR (c : ℝ) : ℝ :=
  let c1 := if c < -((scene_scale : ℚ) : ℝ) then ((scene_scale : ℚ) : ℝ) else c
  if c1 > ((scene_scale : ℚ) : ℝ) then -((scene_scale : ℚ) : ℝ) else c1

/-- `kernUpdatePos` as a state transformer: thread `index` writes only
`pos[index]`, reading the `dev_vel2` buffer, as launched by
`stepSimulationNaive` (kernel.cu line 834). -/
noncomputable def kernUpdatePosR (N : ℤ) (dt : ℝ) (s : SimStateR) : SimStateR :=
  (List.range N.toNat).foldl
    (fun st (idx : ℕ) =>
      { st with
        pos := Function.update st.pos ((idx : ℕ) : ℤ)
          (let thisPos := (st.pos ((idx : ℕ) : ℤ)).add
            (Vec3R.scale dt (st.vel2 ((idx : ℕ) : ℤ)))
           ⟨wrapR thisPos.x, wrapR thisPos.y, wrapR thisPos.z⟩) })
    s

/-- `Boids::stepSimulationNaive`, kernel.cu lines 827-839: brute-force
velocity update into `dev_vel2`, position update reading `dev_vel2`, then the
pointer swap of `dev_vel1` and `dev_vel2` (lines 836-838). -/
noncomputable def stepSimulationNaive (N : ℤ) (dt : ℝ) (s : SimStateR) : SimStateR :=
  let s1 := kernUpdateVelocityBruteForceR N s
  let s2 := kernUpdatePosR N dt s1
  { pos := s2.pos, vel1 := s2.vel2, vel2 := s2.vel1 }

theorem bruteForceR_fold (N : ℤ) (s : SimStateR) (n : ℕ) :
    ((List.range n).foldl
        (fun st (idx : ℕ) =>
          { st with
            vel2 := Function.update st.vel2 ((idx : ℕ) : ℤ)
              (computeVelocityChangeR N ((idx : ℕ) : ℤ) st.pos st.vel1) })
        s).pos = s.pos ∧
      ((List.range n).foldl
        (fun st (idx : ℕ) =>
          { st with
            vel2 := Function.update st.vel2 ((idx : ℕ) : ℤ)
              (computeVelocityChangeR N ((idx : ℕ) : ℤ) st.pos st.vel1) })
        s).vel1 = s.vel1 ∧
      ∀ i : ℤ,
        ((List.range n).foldl
          (fun st (idx : ℕ) =>
            { st with
              vel2 := Function.update st.vel2 ((idx : ℕ) : ℤ)
                (computeVelocityChangeR N ((idx : ℕ) : ℤ) st.pos st.vel1) })
          s).vel2 i =
          if 0 ≤ i ∧ i < (n : ℤ) then computeVelocityChangeR N i s.pos s.vel1 else s.vel2 i := by
  induction n with
  | zero =>
    refine ⟨rfl, rfl, fun i => ?_⟩
    rw [if_neg (by omega)]
    rfl
  | succ n ih =>
    obtain ⟨hp, hv1, hv2⟩ := ih
    rw [List.range_succ, List.foldl_append]
    simp only [List.foldl_cons, List.foldl_nil]
    refine ⟨hp, hv1, fun i => ?_⟩
    show Function.update _ ((n : ℕ) : ℤ) _ i = _
    by_cases hin : i = (n : ℤ)
    · subst hin
      rw [Function.update_same, hp, hv1,
        if_pos ⟨by positivity, by push_cast; omega⟩]
    · rw [Function.update_noteq hin, hv2 i]
      by_cases hc : 0 ≤ i ∧ i < (n : ℤ)
      · rw [if_pos hc, if_pos (by push_cast; omega)]
      · rw [if_neg hc, if_neg (by push_cast at hc ⊢; omega)]

theorem updatePosR_fold_frame (N : ℤ) (dt : ℝ) (s : SimStateR) (n : ℕ) :
    ((List.range n).foldl
        (fun st (idx : ℕ) =>
          { st with
            pos := Function.update st.pos ((idx : ℕ) : ℤ)
              (let thisPos := (st.pos ((idx : ℕ) : ℤ)).add
                (Vec3R.scale dt (st.vel2 ((idx : ℕ) : ℤ)))
               ⟨wrapR thisPos.x, wrapR thisPos.y, wrapR thisPos.z⟩) })
        s).vel1 = s.vel1 ∧
      ((List.range n).foldl
        (fun st (idx : ℕ) =>
          { st with
            pos := Function.update st.pos ((idx : ℕ) : ℤ)
              (let thisPos := (st.pos ((idx : ℕ) : ℤ)).add
                (Vec3R.scale dt (st.vel2 ((idx : ℕ) : ℤ)))
               ⟨wrapR thisPos.x, wrapR thisPos.y, wrapR thisPos.z⟩) })
        s).vel2 = s.vel2 := by
  induction n with
  | zero => exact ⟨rfl, rfl⟩
  | succ n ih =>
    obtain ⟨h1, h2⟩ := ih
    rw [List.range_succ, List.foldl_append]
    simp only [List.foldl_cons, List.foldl_nil]
    exact ⟨h1, h2⟩

/-- **C9.**  The brute-force velocity-evaluation stage writes only slot `i` of
the next-generation velocity buffer for each thread `i < N`, computed from the
initial position and current-velocity buffers; the position buffer and the
entire current-generation velocity buffer are unchanged by the stage, and the
step afterwards exchanges the roles of the two velocity buffers: the swapped-in
"current" buffer is exactly the buffer the evaluation wrote, and the swapped-in
"next" buffer holds the previous current-generation data unchanged. -/
theorem bruteForce_frame_and_swap (N : ℤ) (dt : ℝ) (s : SimStateR) :
    (kernUpdateVelocityBruteForceR N s).pos = s.pos ∧
      (kernUpdateVelocityBruteForceR N s).vel1 = s.vel1 ∧
      (∀ i : ℤ, (kernUpdateVelocityBruteForceR N s).vel2 i =
        if 0 ≤ i ∧ i < N then computeVelocityChangeR N i s.pos s.vel1 else s.vel2 i) ∧
      (stepSimulationNaive N dt s).vel1 = (kernUpdateVelocityBruteForceR N s).vel2 ∧
      (stepSimulationNaive N dt s).vel2 = s.vel1 := by
  obtain ⟨hp, hv1, hv2⟩ := bruteForceR_fold N s N.toNat
  have hframe := updatePosR_fold_frame N dt (kernUpdateVelocityBruteForceR N s) N.toNat
  refine ⟨hp, hv1, fun i => ?_, hframe.2, hframe.1.trans hv1⟩
  have h := hv2 i
  rcases le_or_lt 0 N with hN | hN
  · rw [Int.toNat_of_nonneg hN] at h
    exact h
  · rw [if_neg (by omega)] at h
    rw [if_neg (by omega)]
    exact h

/-! ### The coherent step's three independent key sorts -/

/-- Modelled from the spec: `thrust::sort_by_key` is an external library
primitive (its code is not part of this repository), and
`Boids::stepSimulationCoherentGrid` (kernel.cu lines 941-996) invokes it three
times on independent copies of the same unsorted cell-id key array, once for
each payload (array indices, positions, velocities).  Per the spec, the sort
reorders the pairs so the keys ascend, and "Ties (equal keys) may be
reordered; no ordering guarantee among particles sharing a cell": a
permutation `σ` of the sort slots is a possible outcome exactly when the
permuted key sequence is monotone. -/
def IsSortOutcome {n : ℕ} (key : Fin n → ℤ) (σ : Equiv.Perm (Fin n)) : Prop :=
  Monotone fun i => key (σ i)

/-- The key and payloads of a two-particle coherent step in which both
particles share one grid cell. -/
def keyTieC8 : Fin 2 → ℤ := fun _ => 0

def posFinC8 : Fin 2 → Vec3 := fun j => posA ((j : ℕ) : ℤ)

def velFinC8 : Fin 2 → Vec3 := fun j => velA ((j : ℕ) : ℤ)

/-- **C8 counterexample.**  With two particles sharing cell id 0, the identity
permutation is a valid outcome of the array-index sort and of the velocity
sort, while the transposition is a valid outcome of the position sort (all
three permuted key sequences are constant, hence monotone).  No single
permutation `π` then reproduces all three resulting orders: the array-index
payload pins `π` to the identity, but the position order is swapped. -/
theorem coherent_sorts_can_misalign :
    ¬∀ σI σP σV : Equiv.Perm (Fin 2),
        IsSortOutcome keyTieC8 σI → IsSortOutcome keyTieC8 σP → IsSortOutcome keyTieC8 σV →
          ∃ π : Equiv.Perm (Fin 2),
            (∀ i, σI i = π i) ∧ (∀ i, posFinC8 (σP i) = posFinC8 (π i)) ∧
              ∀ i, velFinC8 (σV i) = velFinC8 (π i) := by
  intro hcl
  have hmono : ∀ σ : Equiv.Perm (Fin 2), IsSortOutcome keyTieC8 σ := by
    intro σ
    intro a b _
    exact le_refl _
  obtain ⟨π, hI, hP, _⟩ := hcl 1 (Equiv.swap 0 1) 1 (hmono 1) (hmono (Equiv.swap 0 1)) (hmono 1)
  have hπ0 : π 0 = 0 := (hI 0).symm
  have h := hP 0
  rw [hπ0] at h
  have hswap : (Equiv.swap (0 : Fin 2) 1) 0 = 1 := by
    simp [Equiv.swap_apply_left]
  rw [hswap] at h
  have hx := congrArg Vec3.x h
  simp only [posFinC8, posA] at hx
  norm_num at hx

/-- Two monotone rearrangements of an injective key sequence coincide. -/
theorem sortOutcome_unique {n : ℕ} (key : Fin n → ℤ) (hinj : Function.Injective key)
    {σ₁ σ₂ : Equiv.Perm (Fin n)} (h1 : IsSortOutcome key σ₁) (h2 : IsSortOutcome key σ₂) :
    σ₁ = σ₂ := by
  have hs1 : StrictMono fun i => key (σ₁ i) :=
    h1.strictMono_of_injective (hinj.comp σ₁.injective)
  have hs2 : StrictMono fun i => key (σ₂ i) :=
    h2.strictMono_of_injective (hinj.comp σ₂.injective)
  have hcard : (Finset.univ.image key).card = n := by
    rw [Finset.card_image_of_injective _ hinj, Finset.card_univ, Fintype.card_fin]
  have hmem1 : ∀ i, key (σ₁ i) ∈ Finset.univ.image key := fun i =>
    Finset.mem_image_of_mem key (Finset.mem_univ _)
  have hmem2 : ∀ i, key (σ₂ i) ∈ Finset.univ.image key := fun i =>
    Finset.mem_image_of_mem key (Finset.mem_univ _)
  have he1 := Finset.orderEmbOfFin_unique hcard hmem1 hs1
  have he2 := Finset.orderEmbOfFin_unique hcard hmem2 hs2
  apply Equiv.ext
  intro i
  apply hinj
  calc
    key (σ₁ i) = (Finset.univ.image key).orderEmbOfFin hcard i := congrFun he1 i
    _ = key (σ₂ i) := (congrFun he2 i).symm

/-- **C8 amended.**  When no two particles share a cell id (the key array is
injective), the monotone rearrangement is unique, so the three independent
sorts of the coherent step produce the same permutation and a single `π`
aligns the array-index, position, and velocity orders. -/
theorem coherent_sorts_aligned_of_injective {n : ℕ} (key : Fin n → ℤ)
    (hinj : Function.Injective key) (pos vel : Fin n → Vec3)
    (σI σP σV : Equiv.Perm (Fin n))
    (hI : IsSortOutcome key σI) (hP : IsSortOutcome key σP) (hV : IsSortOutcome key σV) :
    ∃ π : Equiv.Perm (Fin n),
      (∀ i, σI i = π i) ∧ (∀ i, pos (σP i) = pos (π i)) ∧ ∀ i, vel (σV i) = vel (π i) := by
  have hPI : σP = σI := sortOutcome_unique key hinj hP hI
  have hVI : σV = σI := sortOutcome_unique key hinj hV hI
  exact ⟨σI, fun i => rfl, fun i => by rw [hPI], fun i => by rw [hVI]⟩

theorem coherent_sorts_aligned_of_injective_witness :
    ∃ π : Equiv.Perm (Fin 2),
      (∀ i, (1 : Equiv.Perm (Fin 2)) i = π i) ∧
        (∀ i, posFinC8 ((1 : Equiv.Perm (Fin 2)) i) = posFinC8 (π i)) ∧
          ∀ i, velFinC8 ((1 : Equiv.Perm (Fin 2)) i) = velFinC8 (π i) := by
  have hinj : Function.Injective fun i : Fin 2 => ((i : ℕ) : ℤ) := by
    intro a b h
    have h' : ((a : ℕ) : ℤ) = ((b : ℕ) : ℤ) := h
    have : (a : ℕ) = (b : ℕ) := by exact_mod_cast h'
    exact Fin.ext this
  have hmono : IsSortOutcome (fun i : Fin 2 => ((i : ℕ) : ℤ)) 1 := by
    intro a b hab
    simp only [Equiv.Perm.coe_one, id_eq]
    exact_mod_cast Fin.le_iff_val_le_val.mp hab
  exact coherent_sorts_aligned_of_injective (fun i : Fin 2 => ((i : ℕ) : ℤ)) hinj
    posFinC8 velFinC8 1 1 1 hmono hmono hmono

end BoidsModel
